import Mathlib

/-!
# Verification of the BWV chorale corpus extraction pipeline

A shallow embedding of `scripts/chorales.py`: the data model (scores, parts,
note/rest events), the event encoders (`prepare_mono_all_constant_t`,
`prepare_mono_all`, `prepare_durations`), the key normalizer
(`_standardize_key`), the voice canonicalizer (`_standardize_part_ids`) and
the vocabulary construction of `_process_scores_with`, together with theorems
settling the specification's claims about them.

Durations (music21 `quarterLength` values) are exact rationals; they are
embedded as unnormalized fractions (`Frac`) so that every operation the
source performs on them (multiplication by the frame constant, comparison
with `1.0`, decimal rendering by `str`) is a plain integer computation.

The repository's `constants.py` is not part of the provided sources; the
constants it supplies (`NOTE_START_SYM`, `START_DELIM`, `END_DELIM`,
`FRAMES_PER_CROTCHET`) are modelled from the spec, as documented on each.
-/

namespace Chorales

/-- An exact fraction (numerator/denominator), not necessarily in lowest
terms.  Embeds the float/`Fraction` quarter-length values of the source; all
values occurring in the pipeline have a positive denominator. -/
structure Frac where
  num : Int
  den : Nat
  deriving DecidableEq, Repr

/-- The fraction `n/1`. -/
def Frac.ofInt (n : Int) : Frac := ⟨n, 1⟩

/-- Product of a natural constant and a fraction (`FRAMES_PER_CROTCHET * dur`
in the source). -/
def Frac.scale (k : Nat) (q : Frac) : Frac := ⟨(k : Int) * q.num, q.den⟩

/-- `1.0 <= q` on fractions with positive denominator
(`lambda x: x >= 1.0` in the source's assertion). -/
def Frac.oneLe (q : Frac) : Prop := (q.den : Int) ≤ q.num

instance (q : Frac) : Decidable q.oneLe := by
  unfold Frac.oneLe; infer_instance

/-- Mathematical floor of a fraction (Python `int()` on the nonnegative
values the source truncates). -/
def Frac.floor (q : Frac) : Int := q.num.fdiv q.den

/-- The fractional part `q - floor q`, as a fraction over the same
denominator. -/
def Frac.fracPart (q : Frac) : Frac := ⟨q.num - q.floor * q.den, q.den⟩

/-- First-match association-list lookup: Python `dict` access for the dicts
built below from association lists (whose keys are pairwise distinct, so
first match is the dict entry). -/
def dlookup {α β : Type} [DecidableEq α] (k : α) : List (α × β) → Option β
  | [] => none
  | kv :: rest => if kv.1 = k then some kv.2 else dlookup k rest

theorem dlookup_mem {α β : Type} [DecidableEq α] (k : α) (v : β) (d : List (α × β))
    (h : dlookup k d = some v) : (k, v) ∈ d := by
  induction d with
  | nil => exact Option.noConfusion h
  | cons kv rest ih =>
    rw [dlookup] at h
    by_cases hk : kv.1 = k
    · rw [if_pos hk] at h
      injection h with hv
      have hkv : (k, v) = kv := by rw [← hk, ← hv]
      rw [hkv]
      exact List.mem_cons_self _ _
    · rw [if_neg hk] at h
      exact List.mem_cons_of_mem _ (ih h)

/-- Decimal digits of the fractional part of a nonnegative fraction, with
fuel (17 digits suffices for every exactly representable value the pipeline
produces). -/
def fracDigits : Frac → Nat → List Nat
  | _, 0 => []
  | q, fuel + 1 =>
    if q.num = 0 then []
    else
      let q10 : Frac := ⟨q.num * 10, q.den⟩
      q10.floor.toNat :: fracDigits q10.fracPart fuel

/-- Python 2 `str()` on a nonnegative decimal-representable number:
`str(1.0) = "1.0"`, `str(0.5) = "0.5"`.  Modelled from the spec:
`constants.py` and the float-rendering of the host language are outside
`src/`; the spec fixes tokens such as `"60,1.0"` and `"REST,0.5"`, i.e.
integer part, a dot, and the decimal digits (a single `0` when the value is
integral). -/
def pyFloatStrNonneg (q : Frac) : String :=
  let ds := fracDigits q.fracPart 17
  toString q.floor.toNat ++ "." ++
    (if ds.isEmpty then "0" else String.join (ds.map toString))

/-- Python 2 `str()` on a decimal-representable number, with sign. -/
def pyFloatStr (q : Frac) : String :=
  if q.num < 0 then "-" ++ pyFloatStrNonneg ⟨-q.num, q.den⟩
  else pyFloatStrNonneg q

/-- A note or rest event of a voice: `isNote`, the MIDI pitch (meaningful
only for notes) and the `quarterLength` duration. -/
structure NR where
  isNote : Bool
  midi : Int
  ql : Frac
  deriving DecidableEq, Repr

/-- A part (voice) of a score: its `id` and its measures, each a list of
note/rest events.  Iterating the part itself yields its measures (the
music21 container behaviour); `part.flat.notesAndRests` flattens them. -/
structure Part where
  id : String
  measures : List (List NR)
  deriving DecidableEq, Repr

/-- `part.flat.notesAndRests`: the flattened note/rest stream of the part. -/
def Part.flatNotesAndRests (p : Part) : List NR := p.measures.flatMap (fun m => m)

/-- Exact sum of two fractions (without normalization). -/
def Frac.add (a b : Frac) : Frac := ⟨a.num * b.den + b.num * a.den, a.den * b.den⟩

/-- `quarterLength` of each element obtained by iterating the part directly
(as `prepare_durations` does): music21 yields the part's top-level measure
containers, whose `quarterLength` is the measure's span, i.e. the sum of the
durations of its (sequential) members.  Models the external music21
collaborator. -/
def Part.elementQLs (p : Part) : List Frac :=
  p.measures.map (fun m => (m.map NR.ql).foldl Frac.add (Frac.ofInt 0))

/-- A score: title, first time signature's ratio string, analyzed key
(tonic spelling, its pitch class, and mode), parts, and key signatures
(represented by their transposition-relevant content only). -/
structure Score where
  title : String
  ratioString : String
  tonic : String
  keyPC : Int
  mode : String
  parts : List Part
  keySigs : List Int
  deriving DecidableEq, Repr

/-- `_encode_note_duration_tuples`: notes are encoded with their MIDI value
and rests as `-1`, paired with the duration in crotchets
(`chorales.py` lines 242-252). -/
def encode_note_duration_tuples (p : Part) : List (Int × Frac) :=
  p.flatNotesAndRests.map (fun nr => (if nr.isNote then nr.midi else -1, nr.ql))

/-- Modelled from the spec: `constants.py` is not under `src/`.  The start
marker prefixed to the first frame of an event by the constant-timestep
encoder; the spec's token examples render it as `<START>` (`"<START>60"`). -/
def NOTE_START_SYM : String := "<START>"

/-- Rendering of the pitch component of a `(pitch, duration)` pair as the
source's `'{0},{1}'.format` does: Python `str` of the integer. -/
def intStr (n : Int) : String := toString n

/-- `prepare_mono_all_constant_t`, lines 47-56, for one part's note/duration
pairs.  First (line 49) the assertion: every `FRAMES_PER_CROTCHET * dur`
must be at least `1.0`, else `AssertionError` with the fixed message.  Then
the emission loop: its first iteration computes `NOTE_START_SYM + note`
(line 54) where `NOTE_START_SYM` is a string and `note` the integer MIDI
value from `_encode_note_duration_tuples` — in Python 2 `str + int` raises
`TypeError`, so for a non-empty event stream the loop dies on its first
event and no tokens are ever emitted (the bare repeats of line 56 would
likewise append raw integers, never strings).  An empty event stream skips
the loop and yields an empty token list.  `fpc` is the
`FRAMES_PER_CROTCHET` constant (supplied by the absent `constants.py`; the
spec gives 4 as the reference value). -/
def encode_constant_t (fpc : Nat) (pairs : List (Int × Frac)) : Except String (List String) :=
  if pairs.all (fun p => decide (Frac.scale fpc p.2).oneLe) then
    if pairs.isEmpty then .ok []
    else .error "TypeError: cannot concatenate str and int objects"
  else
    .error "Could not quantize constant timesteps"

/-- A pitch token component: either the raw MIDI integer produced by
`_encode_note_duration_tuples` (rests being `-1`), or a pitch-name string
produced by the pitch-class folding step. -/
inductive Ptok where
  | midi (m : Int)
  | name (s : String)
  deriving DecidableEq, Repr

/-- Python rendering of the first tuple component in
`'{0},{1}'.format(*entry)`. -/
def Ptok.render : Ptok → String
  | .midi m => intStr m
  | .name s => s

/-- music21's default spelling of a pitch class (`Note(m).name` ignores the
octave; out-of-range MIDI values are wrapped by octaves, so the name depends
only on `m mod 12`).  Models the external music21 collaborator. -/
def midiName (m : Int) : String :=
  match (m % 12).toNat with
  | 0 => "C" | 1 => "C#" | 2 => "D" | 3 => "E-" | 4 => "E" | 5 => "F"
  | 6 => "F#" | 7 => "G" | 8 => "G#" | 9 => "A" | 10 => "B-" | _ => "B"

/-- The guard `x[0] == u'REST'` of the pitch-class folding lambda: a Python
`==` between the tuple's first component and the string `'REST'`, which is
`False` whenever that component is an integer. -/
def Ptok.eqRESTLiteral : Ptok → Bool
  | .midi _ => false
  | .name s => s == "REST"

/-- `Note(x[0]).name`: music21's pitch name for the folded component.  For an
integer it is `midiName`; for a pitch-name string music21 returns the same
name (octave-free input). -/
def Ptok.noteName : Ptok → String
  | .midi m => midiName m
  | .name s => s

/-- The pitch-class folding map of `prepare_mono_all`, lines 88-91:
`lambda x: x if (x[0] == u'REST') else (Note(x[0]).name, x[1])`. -/
def foldPitchClass (x : Ptok × Frac) : Ptok × Frac :=
  if x.1.eqRESTLiteral then x else (.name x.1.noteName, x.2)

/-- The per-part token sequence of `prepare_mono_all`, lines 87-92: the
note/duration pairs, optionally folded to pitch classes, rendered as
`"{0},{1}"`. -/
def mono_pairs_tokens (usePitchClasses : Bool) (p : Part) : List String :=
  let pairs : List (Ptok × Frac) :=
    (encode_note_duration_tuples p).map (fun x => (Ptok.midi x.1, x.2))
  let pairs := if usePitchClasses then pairs.map foldPitchClass else pairs
  pairs.map (fun entry => entry.1.render ++ "," ++ pyFloatStr entry.2)

/-- The major-mode half-step table of `_standardize_key`
(`chorales.py` line 225), as the association list handed to `dict`. -/
def majorsTable : List (String × Int) :=
  [("A-", 4), ("A", 3), ("B-", 2), ("B", 1), ("C", 0), ("D-", -1), ("D", -2),
   ("E-", -3), ("E", -4), ("F", -5), ("F#", 6), ("G-", 6), ("G", 5)]

/-- `majors[key.tonic.name]`. -/
def majors (t : String) : Option Int := dlookup t majorsTable

/-- The minor-mode half-step table of `_standardize_key`
(`chorales.py` line 226), as the association list handed to `dict`. -/
def minorsTable : List (String × Int) :=
  [("A-", 1), ("A", 0), ("B-", -1), ("B", -2), ("C", -3), ("D-", -4), ("D", -5),
   ("E-", 6), ("E", 5), ("F", 4), ("F#", 3), ("G-", 3), ("G", 2)]

/-- `minors[key.tonic.name]`. -/
def minors (t : String) : Option Int := dlookup t minorsTable

/-- Equal-tempered pitch class of each tonic spelling the tables cover
(models the external music21 pitch model: `C = 0, ..., B = 11`). -/
def pcOfNameTable : List (String × Int) :=
  [("C", 0), ("D-", 1), ("D", 2), ("E-", 3), ("E", 4), ("F", 5), ("F#", 6),
   ("G-", 6), ("G", 7), ("A-", 8), ("A", 9), ("B-", 10), ("B", 11)]

/-- Pitch class of a tonic spelling. -/
def pcOfName (t : String) : Option Int := dlookup t pcOfNameTable

/-- Transposing a part by `h` semitones: every note's MIDI value is shifted,
rests are untouched (models the external `score.transpose`). -/
def transposePart (h : Int) (p : Part) : Part :=
  { p with measures := p.measures.map (fun m =>
      m.map (fun nr => if nr.isNote then { nr with midi := nr.midi + h } else nr)) }

/-- `_standardize_key` (`chorales.py` lines 219-239): analyze the key, look
the tonic up in the mode's table, transpose the score and its key signatures
by the resulting number of half steps.  A mode outside major/minor leaves
`halfSteps` unbound (`NameError`) and a tonic outside the table raises
`KeyError`; both are modelled as `none`.  Transposing shifts the analyzed
key's pitch class by the same amount modulo 12 (music21 collaborator). -/
def standardize_key (s : Score) : Option Score :=
  let halfSteps? : Option Int :=
    if s.mode = "major" then majors s.tonic
    else if s.mode = "minor" then minors s.tonic
    else none
  halfSteps?.map (fun h =>
    { s with
      parts := s.parts.map (transposePart h)
      keySigs := s.keySigs.map (fun ks => ks + h)
      keyPC := (s.keyPC + h) % 12 })

/-- The `_fn` of `prepare_mono_all` (`chorales.py` lines 74-96) applied to
one score.  Scores whose first time signature is not `4/4` yield nothing.
With `soprano_only` set the source calls `_get_soprano_part`, a name defined
nowhere in the module (and not importable from `constants` via `import *`,
which skips underscore names), so the generator raises `NameError` before
yielding anything; this is modelled as an error.  Otherwise the loop
iterates `score.parts` and yields one `"{bwv}-{mode}-{part}-mono"` unit per
part (the third format argument `part.id` of the soprano branch's
two-placeholder template is ignored by Python's `format`). -/
def mono_all_fn (sopranoOnly usePitchClasses : Bool) (score : Score) :
    Except String (List (String × List String)) :=
  if score.ratioString = "4/4" then
    match standardize_key score with
    | none => .error "error in _standardize_key"
    | some s =>
      if sopranoOnly then
        .error "NameError: global name _get_soprano_part is not defined"
      else
        .ok (s.parts.map (fun part =>
          (score.title ++ "-" ++ s.mode ++ "-" ++ part.id ++ "-mono",
            mono_pairs_tokens usePitchClasses part)))
  else .ok []

/-- The `_fn` of `prepare_mono_all_constant_t` (`chorales.py` lines 39-57)
applied to one score: for each part of a standardized 4/4 score, run the
quantizability assertion and then the (crashing, see `encode_constant_t`)
frame-token emission under the `"{bwv}-{mode}-{part}-mono-all"` key. -/
def mono_constant_t_fn (fpc : Nat) (score : Score) :
    Except String (List (String × List String)) :=
  if score.ratioString = "4/4" then
    match standardize_key score with
    | none => .error "error in _standardize_key"
    | some s =>
      s.parts.mapM (fun part =>
        (encode_constant_t fpc (encode_note_duration_tuples part)).map (fun toks =>
          (score.title ++ "-" ++ s.mode ++ "-" ++ part.id ++ "-mono-all", toks)))
  else .ok []

/-- The `_fn` of `prepare_durations` (`chorales.py` lines 102-112) applied
to one score: for each part of a standardized 4/4 score, the stringified
`quarterLength` of each element obtained by iterating the part directly
(`map(lambda note: note.quarterLength, part)` — note: not
`part.flat.notesAndRests`), under the `"{bwv}-{mode}-{part}-duration"`
key. -/
def durations_fn (score : Score) : Except String (List (String × List String)) :=
  if score.ratioString = "4/4" then
    match standardize_key score with
    | none => .error "error in _standardize_key"
    | some s =>
      .ok (s.parts.map (fun part =>
        (score.title ++ "-" ++ s.mode ++ "-" ++ part.id ++ "-duration",
          part.elementQLs.map (fun entry => pyFloatStr entry))))
  else .ok []

/-- The `id_to_name` synonym dict of `_standardize_part_ids`
(`chorales.py` lines 192-201): each known raw id maps to its canonical
voice name. -/
def idToNameTable : List (String × String) :=
  [("Soprano", "Soprano"), ("S.", "Soprano"), ("Soprano 1", "Soprano"),
   ("Soprano\rOboe 1\rViolin1", "Soprano"),
   ("Alto", "Alto"), ("A.", "Alto"),
   ("Tenor", "Tenor"), ("T.", "Tenor"),
   ("Bass", "Bass"), ("B.", "Bass")]

/-- `id_to_name[part.id]`. -/
def id_to_name (i : String) : Option String := dlookup i idToNameTable

/-- `_standardize_part_ids` (`chorales.py` lines 190-208) on the list of a
score's part ids: if every id is in the synonym table, every id is renamed
to its canonical name; otherwise the score is rejected (`None`).  The
`getD i` default is unreachable under the guard. -/
def standardize_part_ids (ids : List String) : Option (List String) :=
  if ids.all (fun i => (id_to_name i).isSome) then
    some (ids.map (fun i => (id_to_name i).getD i))
  else none

/-- Python `d[k] = v` on an insertion-ordered dict: overwrite the existing
entry in place if the key is present, else append a new entry. -/
def dinsert {α β : Type} [DecidableEq α] (k : α) (v : β) (d : List (α × β)) :
    List (α × β) :=
  if d.any (fun kv => kv.1 = k) then
    d.map (fun kv => if kv.1 = k then (k, v) else kv)
  else d ++ [(k, v)]

/-- The fan-in of `_process_scores_with` (`chorales.py` lines 165-169): the
per-score results are concatenated and the units with a non-empty token
list are retained (`if pairs_text:`). -/
def plain_text_data (processedScores : List (List (String × List String))) :
    List (String × List String) :=
  (processedScores.flatMap (fun r => r)).filter (fun u => !u.2.isEmpty)

/-- The vocabulary of `_process_scores_with`: the set of all distinct tokens
of the retained units.  Python iterates a `set` in an unspecified order;
the embedding fixes first-occurrence order (`dedup` keeps the first copy),
one admissible order. -/
def vocabOf (processedScores : List (List (String × List String))) : List String :=
  ((plain_text_data processedScores).flatMap Prod.snd).dedup

/-- `pairs_to_utf` (`chorales.py` line 172):
`dict(map(lambda x: (x[1], unichr(x[0])), enumerate(vocabulary)))` — each
token is assigned the character whose code point is its enumeration
index. -/
def pairs_to_utf (vocab : List String) : List (String × Char) :=
  vocab.enum.map (fun it => (it.2, Char.ofNat it.1))

/-- Modelled from the spec: `constants.py` is not under `src/`.  The START
sentinel code, "chosen from a code range never produced by enumeration":
a private-use-area character, above every content code of a corpus whose
distinct-token count is at most `0xD800`. -/
def START_DELIM : Char := Char.ofNat 0xE000

/-- Modelled from the spec: the END sentinel code, likewise outside the
content-code range and distinct from `START_DELIM`. -/
def END_DELIM : Char := Char.ofNat 0xE001

/-- `utf_to_txt` (`chorales.py` lines 173-175): the inverse dict of
`pairs_to_utf`, followed by the two sentinel insertions. -/
def utf_to_txt (vocab : List String) : List (Char × String) :=
  dinsert END_DELIM "END"
    (dinsert START_DELIM "START"
      ((pairs_to_utf vocab).map (fun tc => (tc.2, tc.1))))

/-- The line sequence of an output unit's `.utf` file
(`map(pairs_to_utf.get, pairs_text)`, each entry a single character, the
file being their newline-join).  The `getD` fallback is unreachable: every
token of a retained unit is in the vocabulary. -/
def utf_lines (vocab : List String) (pairs_text : List String) : List Char :=
  pairs_text.map (fun t => (dlookup t (pairs_to_utf vocab)).getD (Char.ofNat 0))

/-- Decoding one single-character code of a `.utf` file through the
`utf_to_txt.json` dictionary. -/
def decode_utf (vocab : List String) (c : Char) : String :=
  (dlookup c (utf_to_txt vocab)).getD ""

instance {e a : Type} [DecidableEq e] [DecidableEq a] : DecidableEq (Except e a) := fun x y =>
  match x, y with
  | .ok u, .ok v =>
    if h : u = v then isTrue (by rw [h]) else isFalse (by intro hh; cases hh; exact h rfl)
  | .error u, .error v =>
    if h : u = v then isTrue (by rw [h]) else isFalse (by intro hh; cases hh; exact h rfl)
  | .ok _, .error _ => isFalse (by intro hh; cases hh)
  | .error _, .ok _ => isFalse (by intro hh; cases hh)

/-- C2: the constant-timestep encoder never emits the claimed frames at
all.  On a quantizable single quarter note (`4 * 1 = 4` frames claimed) the
assertion passes and the emission then raises `TypeError` (`NOTE_START_SYM +
note` is str + int); on a `3/8`-crotchet event (`4 * 3/8 = 3/2`, not an
integer) the assertion still passes — it checks only `>= 1.0`, so the
failure is the same `TypeError`, not the claimed `QuantizationFailure` — and
the assertion (whose fixed message names no score) fires only when some
event's value is below 1, as for a `1/8`-crotchet event. -/
theorem c2_constant_t_crashes :
    encode_constant_t 4 [((60 : Int), (⟨1, 1⟩ : Frac))] =
      .error "TypeError: cannot concatenate str and int objects" ∧
    encode_constant_t 4 [((60 : Int), (⟨3, 8⟩ : Frac))] =
      .error "TypeError: cannot concatenate str and int objects" ∧
    encode_constant_t 4 [((60 : Int), (⟨1, 8⟩ : Frac))] =
      .error "Could not quantize constant timesteps" ∧
    encode_constant_t 4 ([] : List (Int × Frac)) = .ok [] := by
  decide

theorem majors_spec (t : String) (h : Int) (hl : majors t = some h) :
    (pcOfName t).isSome ∧ ((pcOfName t).getD 0 + h) % 12 = 0 := by
  have hmem := dlookup_mem t h majorsTable hl
  fin_cases hmem <;> exact ⟨by decide, by decide⟩

theorem minors_spec (t : String) (h : Int) (hl : minors t = some h) :
    (pcOfName t).isSome ∧ ((pcOfName t).getD 0 + h) % 12 = 9 := by
  have hmem := dlookup_mem t h minorsTable hl
  fin_cases hmem <;> exact ⟨by decide, by decide⟩

/-- C4: for every score accepted by the key normalizer (mode major or minor,
tonic in the corresponding table), the transposed score's key pitch class is
exactly C (0) for major and A (9) for minor, the mode is unchanged, and the
single half-step shift obtained from the pre-transposition key is applied
both to every part's notes and to every key signature. -/
theorem c4_standardize_key_canonical (s : Score) (h : Int)
    (hpc : pcOfName s.tonic = some s.keyPC)
    (hmode : s.mode = "major" ∨ s.mode = "minor")
    (hlook : (if s.mode = "major" then majors s.tonic else minors s.tonic) = some h) :
    ∃ t, standardize_key s = some t ∧ t.mode = s.mode ∧
      (s.mode = "major" → t.keyPC = 0) ∧ (s.mode = "minor" → t.keyPC = 9) ∧
      t.parts = s.parts.map (transposePart h) ∧
      t.keySigs = s.keySigs.map (fun ks => ks + h) := by
  rcases hmode with hm | hm
  · have hlook2 : majors s.tonic = some h := by
      rw [hm] at hlook
      rwa [if_pos rfl] at hlook
    have hstd : standardize_key s = some
        { s with parts := s.parts.map (transposePart h)
                 keySigs := s.keySigs.map (fun ks => ks + h)
                 keyPC := (s.keyPC + h) % 12 } := by
      unfold standardize_key
      rw [hm, if_pos rfl, hlook2]
      rfl
    refine ⟨_, hstd, rfl, ?_, ?_, rfl, rfl⟩
    · intro _
      obtain ⟨_, hmod⟩ := majors_spec s.tonic h hlook2
      rw [hpc] at hmod
      simpa using hmod
    · intro hmin
      rw [hm] at hmin
      exact absurd hmin (by decide)
  · have hlook2 : minors s.tonic = some h := by
      rw [hm] at hlook
      rwa [if_neg (by decide)] at hlook
    have hstd : standardize_key s = some
        { s with parts := s.parts.map (transposePart h)
                 keySigs := s.keySigs.map (fun ks => ks + h)
                 keyPC := (s.keyPC + h) % 12 } := by
      unfold standardize_key
      rw [hm, if_neg (by decide), hlook2]
      rfl
    refine ⟨_, hstd, rfl, ?_, ?_, rfl, rfl⟩
    · intro hmaj
      rw [hm] at hmaj
      exact absurd hmaj (by decide)
    · intro _
      obtain ⟨_, hmod⟩ := minors_spec s.tonic h hlook2
      rw [hpc] at hmod
      simpa using hmod

/-- C4 witness: a D-major score is shifted by `-2` half steps onto C major,
with the notes and the key signatures shifted alike. -/
theorem c4_standardize_key_canonical_witness :
    pcOfName "D" = some 2 ∧
    (∃ t, standardize_key
        (⟨"BWV 4", "4/4", "D", 2, "major",
          [⟨"Soprano", [[⟨true, 62, ⟨1, 1⟩⟩]]⟩], [2]⟩ : Score) = some t ∧
      t.mode = "major" ∧ ("major" = "major" → t.keyPC = 0) ∧
      ("major" = "minor" → t.keyPC = 9) ∧
      t.parts = [⟨"Soprano", [[⟨true, 62, ⟨1, 1⟩⟩]]⟩].map (transposePart (-2)) ∧
      t.keySigs = [(2 : Int)].map (fun ks => ks + (-2))) := by
  refine ⟨by decide, ?_⟩
  have hres := c4_standardize_key_canonical
    (⟨"BWV 4", "4/4", "D", 2, "major", [⟨"Soprano", [[⟨true, 62, ⟨1, 1⟩⟩]]⟩], [2]⟩ : Score)
    (-2) (by decide) (Or.inl rfl) (by decide)
  exact hres

theorem id_to_name_mem (i v : String) (hl : id_to_name i = some v) :
    v = "Soprano" ∨ v = "Alto" ∨ v = "Tenor" ∨ v = "Bass" := by
  have hmem := dlookup_mem i v idToNameTable hl
  fin_cases hmem <;> decide

/-- C5: the voice canonicalizer is all-or-nothing.  Either some part id is
outside the synonym table and the whole score is rejected (`None`, logged by
the caller), or the score is accepted and every resulting part id is one of
the four canonical voice names. -/
theorem c5_standardize_part_ids_all_or_nothing (ids : List String) :
    (standardize_part_ids ids = none ∧ ∃ i ∈ ids, id_to_name i = none) ∨
    (∃ out, standardize_part_ids ids = some out ∧
      ∀ x ∈ out, x = "Soprano" ∨ x = "Alto" ∨ x = "Tenor" ∨ x = "Bass") := by
  by_cases hall : ids.all (fun i => (id_to_name i).isSome) = true
  · right
    refine ⟨_, by rw [standardize_part_ids, if_pos hall], ?_⟩
    intro x hx
    rcases List.mem_map.mp hx with ⟨i, hi, hxe⟩
    have hsome : (id_to_name i).isSome := by
      have := List.all_eq_true.mp hall i hi
      simpa using this
    obtain ⟨v, hv⟩ := Option.isSome_iff_exists.mp hsome
    have hxv : x = v := by rw [← hxe, hv]; rfl
    rw [hxv]
    exact id_to_name_mem i v hv
  · left
    refine ⟨by rw [standardize_part_ids, if_neg hall], ?_⟩
    have hne : ¬ ∀ i ∈ ids, (id_to_name i).isSome := by
      intro hcontra
      exact hall (List.all_eq_true.mpr (fun i hi => by simpa using hcontra i hi))
    push_neg at hne
    obtain ⟨i, hi, hns⟩ := hne
    exact ⟨i, hi, Option.not_isSome_iff_eq_none.mp hns⟩

/-- The C6 voice: a C4 quarter note followed by an eighth-note rest, i.e.
the event stream `[(60, 1.0), (-1, 0.5)]`. -/
def c6part : Part := ⟨"Soprano", [[⟨true, 60, ⟨1, 1⟩⟩, ⟨false, 0, ⟨1, 2⟩⟩]]⟩

/-- C6 counterexample: on the claimed event stream the mono-pairs encoder
does not emit `["60,1.0", "REST,0.5"]` — rests are rendered with pitch
`-1`, never with the literal `REST`. -/
theorem c6_rest_token_counterexample :
    encode_note_duration_tuples c6part = [(60, ⟨1, 1⟩), (-1, ⟨1, 2⟩)] ∧
    mono_pairs_tokens false c6part ≠ ["60,1.0", "REST,0.5"] := by
  decide

/-- C6 (amended): for a voice whose event stream is
`[(60, 1.0), (-1, 0.5)]`, the mono-pairs encoder (without pitch-class
folding) emits exactly `["60,1.0", "-1,0.5"]`. -/
theorem c6_mono_pairs_tokens_amended :
    encode_note_duration_tuples c6part = [(60, ⟨1, 1⟩), (-1, ⟨1, 2⟩)] ∧
    mono_pairs_tokens false c6part = ["60,1.0", "-1,0.5"] := by
  decide

/-- The C7 voice: a single eighth-note rest. -/
def c7part : Part := ⟨"Soprano", [[⟨false, 0, ⟨1, 2⟩⟩]]⟩

/-- C7: the folding guard compares the pair's pitch against the string
`'REST'`, but rests are encoded as the integer `-1`, so the guard never
fires: the rest is sent through `Note(-1).name`, becoming the pitch name
`"B"` instead of passing through unchanged (notes themselves are folded to
their octave-free name as claimed). -/
theorem c7_rest_not_preserved_by_folding :
    foldPitchClass (Ptok.midi 60, ⟨1, 1⟩) = (Ptok.name "C", ⟨1, 1⟩) ∧
    foldPitchClass (Ptok.midi (-1), ⟨1, 2⟩) = (Ptok.name "B", ⟨1, 2⟩) ∧
    foldPitchClass (Ptok.midi (-1), ⟨1, 2⟩) ≠ (Ptok.midi (-1), ⟨1, 2⟩) ∧
    mono_pairs_tokens true c7part = ["B,0.5"] ∧
    mono_pairs_tokens false c7part = ["-1,0.5"] := by
  decide

/-- The C8 score: 4/4, already C major, one voice with a single quarter
note. -/
def c8score : Score :=
  ⟨"BWV 1.6", "4/4", "C", 0, "major", [⟨"Soprano", [[⟨true, 60, ⟨1, 1⟩⟩]]⟩], [0]⟩

/-- C8: on the claim's own input — a 4/4 score with one voice holding a
single quarter note, `FRAMES_PER_CROTCHET = 4` — the constant-timestep
encoder does not emit the claimed 4 tokens: the quantizability assertion
passes (the single event's value `4 * 1 = 4` is at least 1), and the
emission then raises `TypeError`, because line 54 computes
`NOTE_START_SYM + note` with `note` the integer `60` (and line 56 would
append raw integers as the bare repeats), so no output unit is produced. -/
theorem c8_constant_t_typeerror :
    encode_note_duration_tuples ⟨"Soprano", [[⟨true, 60, ⟨1, 1⟩⟩]]⟩ =
      [(60, ⟨1, 1⟩)] ∧
    ([((60 : Int), (⟨1, 1⟩ : Frac))].all
      (fun p => decide (Frac.scale 4 p.2).oneLe)) = true ∧
    mono_constant_t_fn 4 c8score =
      .error "TypeError: cannot concatenate str and int objects" := by
  decide

/-- The C9 score: an accepted 4/4 C-major score with all four voices. -/
def c9score : Score :=
  ⟨"BWV 3", "4/4", "C", 0, "major",
    [⟨"Soprano", [[⟨true, 72, ⟨1, 1⟩⟩]]⟩, ⟨"Alto", [[⟨true, 65, ⟨1, 1⟩⟩]]⟩,
     ⟨"Tenor", [[⟨true, 60, ⟨1, 1⟩⟩]]⟩, ⟨"Bass", [[⟨true, 48, ⟨1, 1⟩⟩]]⟩], [0]⟩

/-- C9: in soprano-only mode the mono-pairs pipeline does not produce a
Soprano-only output unit at all — `_get_soprano_part` is defined nowhere in
the module, so processing an accepted 4/4 score raises `NameError` (and the
subsequent loop, had it been reached, iterates `score.parts`, all voices,
rather than the selected parts). -/
theorem c9_soprano_only_fails :
    mono_all_fn true false c9score =
      .error "NameError: global name _get_soprano_part is not defined" ∧
    mono_all_fn false false c9score =
      .ok [("BWV 3-major-Soprano-mono", ["72,1.0"]),
           ("BWV 3-major-Alto-mono", ["65,1.0"]),
           ("BWV 3-major-Tenor-mono", ["60,1.0"]),
           ("BWV 3-major-Bass-mono", ["48,1.0"])] := by
  decide

/-- The C10 score: one voice whose single measure holds two events, a
quarter note and an eighth rest. -/
def c10score : Score :=
  ⟨"BWV 2", "4/4", "C", 0, "major",
    [⟨"Soprano", [[⟨true, 60, ⟨1, 1⟩⟩, ⟨false, 0, ⟨1, 2⟩⟩]]⟩], [0]⟩

/-- C10: the duration-only encoder iterates the part itself, not
`part.flat.notesAndRests`, so it sees the part's measure containers: a voice
with two note/rest events (durations 1.0 and 0.5) yields the single token
`"1.5"` — the measure's span — not one stringified duration per event. -/
theorem c10_durations_not_per_event :
    durations_fn c10score = .ok [("BWV 2-major-Soprano-duration", ["1.5"])] ∧
    c10score.parts.map (fun p => p.flatNotesAndRests.length) = [2] ∧
    (["1.5"] : List String).length ≠ 2 ∧
    c10score.parts.map (fun p => p.flatNotesAndRests.map (fun nr => pyFloatStr nr.ql)) =
      [["1.0", "0.5"]] := by
  decide

theorem charOfNat_toNat (n : Nat) (h : n < 55296) : (Char.ofNat n).toNat = n := by
  unfold Char.ofNat
  split
  · rfl
  · exact absurd (Or.inl h) (by assumption)

theorem charOfNat_inj {i j : Nat} (hi : i < 55296) (hj : j < 55296)
    (hij : Char.ofNat i = Char.ofNat j) : i = j := by
  have h := congrArg Char.toNat hij
  rwa [charOfNat_toNat i hi, charOfNat_toNat j hj] at h

theorem dlookup_enumFrom_token (l : List String) (hnd : l.Nodup) (k i : Nat)
    (hi : i < l.length) :
    dlookup (l.get ⟨i, hi⟩) ((l.enumFrom k).map (fun it => (it.2, Char.ofNat it.1))) =
      some (Char.ofNat (k + i)) := by
  induction l generalizing k i with
  | nil => exact absurd hi (Nat.not_lt_zero i)
  | cons t rest ih =>
    match i with
    | 0 =>
      show dlookup t ((t, Char.ofNat k) :: _) = some (Char.ofNat (k + 0))
      rw [dlookup, if_pos rfl, Nat.add_zero]
    | j + 1 =>
      have hj : j < rest.length := Nat.lt_of_succ_lt_succ hi
      have hne : t ≠ rest.get ⟨j, hj⟩ := by
        intro he
        exact (List.nodup_cons.mp hnd).1 (he ▸ List.get_mem rest _ _)
      show dlookup (rest.get ⟨j, hj⟩)
          ((t, Char.ofNat k) :: (rest.enumFrom (k + 1)).map (fun it => (it.2, Char.ofNat it.1))) =
        some (Char.ofNat (k + (j + 1)))
      rw [dlookup, if_neg (by exact fun hc => hne hc)]
      rw [ih (List.nodup_cons.mp hnd).2 (k + 1) j hj]
      have harith : k + 1 + j = k + (j + 1) := by omega
      rw [harith]

theorem dlookup_enumFrom_code (l : List String) (k i : Nat) (hi : i < l.length)
    (hcap : k + l.length ≤ 55296) :
    dlookup (Char.ofNat (k + i)) ((l.enumFrom k).map (fun it => (Char.ofNat it.1, it.2))) =
      some (l.get ⟨i, hi⟩) := by
  induction l generalizing k i with
  | nil => exact absurd hi (Nat.not_lt_zero i)
  | cons t rest ih =>
    match i with
    | 0 =>
      show dlookup (Char.ofNat (k + 0)) ((Char.ofNat k, t) :: _) = some t
      rw [Nat.add_zero, dlookup, if_pos rfl]
    | j + 1 =>
      have hj : j < rest.length := Nat.lt_of_succ_lt_succ hi
      have hlen : rest.length + 1 = (t :: rest).length := rfl
      have hne : Char.ofNat k ≠ Char.ofNat (k + (j + 1)) := by
        intro he
        have hk1 : k < 55296 := by simp only [List.length_cons] at hcap; omega
        have hk2 : k + (j + 1) < 55296 := by
          simp only [List.length_cons] at hcap; omega
        have := charOfNat_inj hk1 hk2 he
        omega
      show dlookup (Char.ofNat (k + (j + 1)))
          ((Char.ofNat k, t) :: (rest.enumFrom (k + 1)).map (fun it => (Char.ofNat it.1, it.2))) =
        some (rest.get ⟨j, hj⟩)
      rw [dlookup, if_neg (by exact fun hc => hne hc)]
      have harith : k + (j + 1) = (k + 1) + j := by omega
      rw [harith]
      exact ih (k + 1) j hj (by simp only [List.length_cons] at hcap; omega)

theorem contentMap_eq (vocab : List String) :
    (pairs_to_utf vocab).map (fun tc => (tc.2, tc.1)) =
      (vocab.enumFrom 0).map (fun it => (Char.ofNat it.1, it.2)) := by
  unfold pairs_to_utf
  rw [List.map_map]
  rfl

theorem dlookup_eq_none {α β : Type} [DecidableEq α] (k : α) (d : List (α × β))
    (h : ∀ kv ∈ d, kv.1 ≠ k) : dlookup k d = none := by
  induction d with
  | nil => rfl
  | cons kv rest ih =>
    rw [dlookup, if_neg (h kv (List.mem_cons_self kv rest))]
    exact ih (fun x hx => h x (List.mem_cons_of_mem kv hx))

theorem dlookup_append_some {α β : Type} [DecidableEq α] (k : α) (v : β)
    (d d2 : List (α × β)) (h : dlookup k d = some v) :
    dlookup k (d ++ d2) = some v := by
  induction d with
  | nil => exact Option.noConfusion h
  | cons kv rest ih =>
    rw [dlookup] at h
    rw [List.cons_append, dlookup]
    by_cases hk : kv.1 = k
    · rw [if_pos hk] at h ⊢
      exact h
    · rw [if_neg hk] at h ⊢
      exact ih h

theorem dlookup_append_none {α β : Type} [DecidableEq α] (k : α)
    (d d2 : List (α × β)) (h : dlookup k d = none) :
    dlookup k (d ++ d2) = dlookup k d2 := by
  induction d with
  | nil => rfl
  | cons kv rest ih =>
    rw [dlookup] at h
    rw [List.cons_append, dlookup]
    by_cases hk : kv.1 = k
    · rw [if_pos hk] at h
      exact Option.noConfusion h
    · rw [if_neg hk] at h ⊢
      exact ih h

theorem dinsert_append {α β : Type} [DecidableEq α] (k : α) (v : β)
    (d : List (α × β)) (h : ∀ kv ∈ d, kv.1 ≠ k) :
    dinsert k v d = d ++ [(k, v)] := by
  unfold dinsert
  rw [if_neg]
  intro hc
  simp only [List.any_eq_true, decide_eq_true_eq] at hc
  obtain ⟨kv, hkv, he⟩ := hc
  exact h kv hkv he

theorem content_key_bound (vocab : List String)
    (kv : Char × String)
    (hkv : kv ∈ (vocab.enumFrom 0).map (fun it => (Char.ofNat it.1, it.2)))
    (hcap : vocab.length ≤ 55296) : kv.1.toNat < 55296 := by
  rcases List.mem_map.mp hkv with ⟨it, hit, he⟩
  have hlt : it.1 < vocab.length := by
    have := List.fst_lt_add_of_mem_enumFrom hit
    omega
  rw [← he]
  show (Char.ofNat it.1).toNat < 55296
  rw [charOfNat_toNat it.1 (by omega)]
  omega

theorem utf_to_txt_eq (vocab : List String) (hcap : vocab.length ≤ 55296) :
    utf_to_txt vocab =
      ((vocab.enumFrom 0).map (fun it => (Char.ofNat it.1, it.2))) ++
        [(START_DELIM, "START"), (END_DELIM, "END")] := by
  unfold utf_to_txt
  rw [contentMap_eq]
  have hs : ∀ kv ∈ (vocab.enumFrom 0).map (fun it => (Char.ofNat it.1, it.2)),
      kv.1 ≠ START_DELIM := by
    intro kv hkv he
    have := content_key_bound vocab kv hkv hcap
    rw [he] at this
    exact absurd this (by decide)
  rw [dinsert_append START_DELIM "START" _ hs]
  have he2 : ∀ kv ∈ (vocab.enumFrom 0).map (fun it => (Char.ofNat it.1, it.2)) ++
      [(START_DELIM, "START")], kv.1 ≠ END_DELIM := by
    intro kv hkv he
    rcases List.mem_append.mp hkv with hkv1 | hkv2
    · have := content_key_bound vocab kv hkv1 hcap
      rw [he] at this
      exact absurd this (by decide)
    · have : kv = (START_DELIM, "START") := by simpa using hkv2
      rw [this] at he
      exact absurd he (by decide)
  rw [dinsert_append END_DELIM "END" _ he2]
  rw [List.append_assoc]
  rfl

theorem token_code_roundtrip (vocab : List String) (hnd : vocab.Nodup)
    (hcap : vocab.length ≤ 55296) (i : Nat) (hi : i < vocab.length) :
    dlookup (vocab.get ⟨i, hi⟩) (pairs_to_utf vocab) = some (Char.ofNat i) ∧
    dlookup (Char.ofNat i) (utf_to_txt vocab) = some (vocab.get ⟨i, hi⟩) := by
  constructor
  · have h := dlookup_enumFrom_token vocab hnd 0 i hi
    rw [Nat.zero_add] at h
    exact h
  · rw [utf_to_txt_eq vocab hcap]
    apply dlookup_append_some
    have h := dlookup_enumFrom_code vocab 0 i hi (by omega)
    rw [Nat.zero_add] at h
    exact h

/-- C3: a corpus with `N` distinct tokens (`N` within the single-character
code space) yields a `utf_to_txt` dictionary of exactly `N + 2` entries —
the `N` content tokens plus the START and END sentinels — whose codes are
pairwise distinct; every content token is assigned exactly one code
(`pairs_to_utf` being a function of the token), that code decodes back to
exactly that token, and the two sentinel codes never collide with content
codes. -/
theorem c3_vocabulary_bijection (vocab : List String) (hnd : vocab.Nodup)
    (hcap : vocab.length ≤ 55296) :
    (utf_to_txt vocab).length = vocab.length + 2 ∧
    ((utf_to_txt vocab).map Prod.fst).Nodup ∧
    (∀ t ∈ vocab, ∃ c : Char, dlookup t (pairs_to_utf vocab) = some c ∧
      dlookup c (utf_to_txt vocab) = some t ∧ c ≠ START_DELIM ∧ c ≠ END_DELIM) ∧
    dlookup START_DELIM (utf_to_txt vocab) = some "START" ∧
    dlookup END_DELIM (utf_to_txt vocab) = some "END" := by
  have hnone : ∀ c : Char, c.toNat ≥ 55296 →
      dlookup c ((vocab.enumFrom 0).map (fun it => (Char.ofNat it.1, it.2))) = none := by
    intro c hc
    apply dlookup_eq_none
    intro kv hkv he
    have := content_key_bound vocab kv hkv hcap
    rw [he] at this
    omega
  refine ⟨?_, ?_, ?_, ?_, ?_⟩
  · rw [utf_to_txt_eq vocab hcap]
    simp [List.enumFrom_length]
  · rw [utf_to_txt_eq vocab hcap, List.map_append]
    rw [List.nodup_append]
    refine ⟨?_, by decide, ?_⟩
    · rw [List.map_map]
      have hm : ((vocab.enumFrom 0).map (Prod.fst ∘ fun it => (Char.ofNat it.1, it.2))) =
          ((vocab.enumFrom 0).map Prod.fst).map Char.ofNat := by
        rw [List.map_map]
        rfl
      rw [hm]
      have henum : (vocab.enumFrom 0).map Prod.fst = List.range vocab.length :=
        List.enum_map_fst vocab
      rw [henum]
      refine (List.nodup_range vocab.length).map_on ?_
      intro x hx y hy hxy
      exact charOfNat_inj (by have := List.mem_range.mp hx; omega)
        (by have := List.mem_range.mp hy; omega) hxy
    · intro c hc hc2
      rcases List.mem_map.mp hc with ⟨kv, hkv, he⟩
      have hb := content_key_bound vocab kv hkv hcap
      rw [he] at hb
      have : c = START_DELIM ∨ c = END_DELIM := by simpa using hc2
      rcases this with rfl | rfl
      · exact absurd hb (by decide)
      · exact absurd hb (by decide)
  · intro t ht
    obtain ⟨⟨i, hi⟩, hgt⟩ := List.mem_iff_get.mp ht
    obtain ⟨hfwd, hbwd⟩ := token_code_roundtrip vocab hnd hcap i hi
    refine ⟨Char.ofNat i, ?_, ?_, ?_, ?_⟩
    · rw [← hgt]
      exact hfwd
    · rw [← hgt]
      exact hbwd
    · intro he
      have := charOfNat_toNat i (by omega)
      rw [he] at this
      exact absurd this (by intro hh; rw [show START_DELIM.toNat = 57344 from by decide] at hh; omega)
    · intro he
      have := charOfNat_toNat i (by omega)
      rw [he] at this
      exact absurd this (by intro hh; rw [show END_DELIM.toNat = 57345 from by decide] at hh; omega)
  · rw [utf_to_txt_eq vocab hcap]
    rw [dlookup_append_none _ _ _ (hnone START_DELIM (by decide))]
    rw [dlookup, if_pos rfl]
  · rw [utf_to_txt_eq vocab hcap]
    rw [dlookup_append_none _ _ _ (hnone END_DELIM (by decide))]
    rw [dlookup, if_neg (by decide), dlookup, if_pos rfl]

/-- C3 witness: a two-token vocabulary yields a four-entry dictionary with
distinct codes, invertible on both content tokens, and disjoint sentinel
codes. -/
theorem c3_vocabulary_bijection_witness :
    (["60,1.0", "-1,0.5"] : List String).Nodup ∧
    (["60,1.0", "-1,0.5"] : List String).length ≤ 55296 ∧
    ((utf_to_txt ["60,1.0", "-1,0.5"]).length = (["60,1.0", "-1,0.5"] : List String).length + 2 ∧
    ((utf_to_txt ["60,1.0", "-1,0.5"]).map Prod.fst).Nodup ∧
    (∀ t ∈ (["60,1.0", "-1,0.5"] : List String), ∃ c : Char,
      dlookup t (pairs_to_utf ["60,1.0", "-1,0.5"]) = some c ∧
      dlookup c (utf_to_txt ["60,1.0", "-1,0.5"]) = some t ∧
      c ≠ START_DELIM ∧ c ≠ END_DELIM) ∧
    dlookup START_DELIM (utf_to_txt ["60,1.0", "-1,0.5"]) = some "START" ∧
    dlookup END_DELIM (utf_to_txt ["60,1.0", "-1,0.5"]) = some "END") :=
  ⟨by decide, by decide, c3_vocabulary_bijection ["60,1.0", "-1,0.5"] (by decide) (by decide)⟩

/-- C1: for every run and every retained (non-empty) output unit, the `.utf`
line sequence has exactly as many entries as the `.txt` line sequence (one
single-character code per token line), and decoding each code through the
run's `utf_to_txt` dictionary reconstructs the `.txt` line sequence
exactly. -/
theorem c1_utf_txt_roundtrip (ps : List (List (String × List String)))
    (hcap : (vocabOf ps).length ≤ 55296)
    (unit : String × List String) (hu : unit ∈ plain_text_data ps) :
    (utf_lines (vocabOf ps) unit.2).length = unit.2.length ∧
    (utf_lines (vocabOf ps) unit.2).map (decode_utf (vocabOf ps)) = unit.2 := by
  constructor
  · unfold utf_lines
    rw [List.length_map]
  · unfold utf_lines decode_utf
    rw [List.map_map]
    have hmem : ∀ t ∈ unit.2, t ∈ vocabOf ps := by
      intro t ht
      unfold vocabOf
      rw [List.mem_dedup]
      exact List.mem_flatMap.mpr ⟨unit, hu, ht⟩
    conv_rhs => rw [← List.map_id unit.2]
    refine List.map_congr_left ?_
    intro t ht
    obtain ⟨⟨i, hi⟩, hgt⟩ := List.mem_iff_get.mp (hmem t ht)
    obtain ⟨hfwd, hbwd⟩ :=
      token_code_roundtrip (vocabOf ps) (List.nodup_dedup _) hcap i hi
    show (dlookup ((dlookup t (pairs_to_utf (vocabOf ps))).getD (Char.ofNat 0))
        (utf_to_txt (vocabOf ps))).getD "" = t
    rw [← hgt, hfwd, Option.getD_some, hbwd, Option.getD_some]

/-- C1 witness: a run with one retained unit of two tokens (and one empty,
discarded unit) round-trips through the single-character encoding. -/
theorem c1_utf_txt_roundtrip_witness :
    (vocabOf [[("f1", ["60,1.0", "-1,0.5"]), ("f2", [])]]).length ≤ 55296 ∧
    ("f1", ["60,1.0", "-1,0.5"]) ∈ plain_text_data [[("f1", ["60,1.0", "-1,0.5"]), ("f2", [])]] ∧
    ((utf_lines (vocabOf [[("f1", ["60,1.0", "-1,0.5"]), ("f2", [])]])
        ("f1", ["60,1.0", "-1,0.5"]).2).length = ("f1", ["60,1.0", "-1,0.5"]).2.length ∧
    (utf_lines (vocabOf [[("f1", ["60,1.0", "-1,0.5"]), ("f2", [])]])
        ("f1", ["60,1.0", "-1,0.5"]).2).map
      (decode_utf (vocabOf [[("f1", ["60,1.0", "-1,0.5"]), ("f2", [])]])) =
      ("f1", ["60,1.0", "-1,0.5"]).2) :=
  ⟨by decide, by decide,
    c1_utf_txt_roundtrip [[("f1", ["60,1.0", "-1,0.5"]), ("f2", [])]] (by decide)
      ("f1", ["60,1.0", "-1,0.5"]) (by decide)⟩

end Chorales
